import Mathlib

/-!
Verification development for the CES (Content Engagement Score) scoring and
filtering engine of the content-analysis repository
(`content_analysis/ces_model.py` and `content_analysis/services/ces_service.py`).

Modelling conventions (shallow embedding):

* Python integers are `ℤ`; Python floats are modelled as exact rational
  numbers (`ℚ`) together with the special values `inf`, `-inf`, `nan`
  (inductive `PFloat`).  IEEE-754 rounding and overflow of finite results are
  idealised away (every finite float is in fact a rational number); the
  special values are produced only by the explicit literals accepted by
  Python's `float()` parser, e.g. `float("inf")`.
* `math.pow(0.5, e)` used by the time-decay weight returns a float whose
  exact value is implementation defined (rounding); inside the rational
  pipeline it is abstracted as a parameter `powHalf : ℚ → ℚ`.  The
  exact-real semantics of the same source function `_time_decay_weight`
  (`0.5 ** x` as a real power) is given by `time_decay_weight_real` and is
  the object of the numerical claim about decay.
* A content item (a Python dict) is modelled by the fixed-field record
  `Note`; fields the core never touches are collected in `extra`.  A key
  that is absent and a key that is present with value `None` behave
  identically everywhere in the core (`dict.get`), except for
  `follow_count`, where `note.get("follow_count", 0)` distinguishes
  an absent key (default `0`); hence `follow_count : Option CVal`.
* Exceptions are modelled with `Except String`; the string is the Python
  exception class name.  `try/except ValueError` is modelled at the point
  of the guarded operations.
* `await asyncio.sleep(0)` is a cooperative yield with no observable
  effect on the result; it is dropped.  The wall clock
  (`time.time() * 1000`) is passed explicitly as `now_ms : ℤ`.
* Python's `list.sort` (Timsort) is a stable sort; it is modelled by
  `List.insertionSort`, which is also stable, with the relation
  "`a` may precede `b`" (for `reverse=True`, the key of `b` is at most the
  key of `a`).  A stable sort w.r.t. a total preorder determines the output
  uniquely, so the choice of stable algorithm is immaterial.
* String processing (`strip`, `replace`, `endswith`, `in`, `lower`) is done
  on `List Char` mirrors of the corresponding Python operations (ASCII
  `lower`, whitespace per `Char.isWhitespace`).
-/

attribute [local semireducible] Rat.mul Rat.inv Rat.add Rat.sub Rat.ofScientific

instance {ε α : Type} [DecidableEq ε] [DecidableEq α] : DecidableEq (Except ε α) := fun x y =>
  match x, y with
  | .ok a, .ok b =>
    if h : a = b then isTrue (by rw [h]) else isFalse (fun he => by cases he; exact h rfl)
  | .error e, .error f =>
    if h : e = f then isTrue (by rw [h]) else isFalse (fun he => by cases he; exact h rfl)
  | .ok _, .error _ => isFalse (fun h => by cases h)
  | .error _, .ok _ => isFalse (fun h => by cases h)

/-- Python float values, idealised: all finite doubles are exact rationals;
the specials `inf`, `-inf` and `nan` are kept separate. -/
inductive PFloat where
  | finite (q : ℚ)
  | inf
  | neginf
  | nan
deriving DecidableEq

/-- Python values that can sit in a count or timestamp field of a note:
`None`, an `int`, a `float`, or a `str`.  Any other Python object entering
`_parse_count` goes through `str(x)` first and therefore behaves like the
string constructor. -/
inductive CVal where
  | vnone
  | vint (n : ℤ)
  | vfloat (f : PFloat)
  | vstr (s : String)
deriving DecidableEq

/-- Truncation toward zero of an exact rational, the behaviour of Python's
`int()` on a finite float. -/
def pytrunc (q : ℚ) : ℤ := Int.tdiv q.num (q.den : ℤ)

/-- Value of a list of decimal digit characters. -/
def digitsToNat (cs : List Char) : ℕ :=
  cs.foldl (fun acc c => 10 * acc + (c.toNat - '0'.toNat)) 0

/-- Python `str.strip()` on a character list: remove leading and trailing
whitespace. -/
def pyStrip (cs : List Char) : List Char :=
  ((cs.dropWhile Char.isWhitespace).reverse.dropWhile Char.isWhitespace).reverse

/-- ASCII lower-casing of a character list, modelling `str.lower()`. -/
def lowerChars (cs : List Char) : List Char := cs.map Char.toLower

/-- Parse an optional sign followed by a non-empty digit string and nothing
else, as in the exponent part of a float literal. -/
def parseSignedDigits (cs : List Char) : Option ℤ :=
  let (sgn, rest) : ℤ × List Char :=
    match cs with
    | '+' :: r => (1, r)
    | '-' :: r => (-1, r)
    | r => (1, r)
  let ds := rest.takeWhile Char.isDigit
  if ds.isEmpty || ds.length ≠ rest.length then none
  else some (sgn * (digitsToNat ds : ℤ))

/-- Parse the unsigned body of a Python float literal
(`digits [. digits] [exponent]`, `. digits [exponent]`), returning its exact
rational value.  The rational is assembled with `mkRat` so that the
definition evaluates by kernel reduction. -/
def parseDecimalCore (cs : List Char) : Option ℚ :=
  let ip := cs.takeWhile Char.isDigit
  let r1 := cs.drop ip.length
  let fp := match r1 with
    | '.' :: t => t.takeWhile Char.isDigit
    | _ => []
  let r2 := match r1 with
    | '.' :: t => t.drop fp.length
    | _ => r1
  if ip.isEmpty && fp.isEmpty then none
  else
    let mant : ℚ := mkRat ((digitsToNat ip : ℤ) * 10 ^ fp.length + (digitsToNat fp : ℤ)) (10 ^ fp.length)
    match r2 with
    | [] => some mant
    | 'e' :: t =>
      match parseSignedDigits t with
      | none => none
      | some e =>
        if 0 ≤ e then some (mkRat (mant.num * 10 ^ e.toNat) mant.den)
        else some (mkRat mant.num (mant.den * 10 ^ (-e).toNat))
    | 'E' :: t =>
      match parseSignedDigits t with
      | none => none
      | some e =>
        if 0 ≤ e then some (mkRat (mant.num * 10 ^ e.toNat) mant.den)
        else some (mkRat mant.num (mant.den * 10 ^ (-e).toNat))
    | _ => none

/-- Python `float(s)` on a string: strip whitespace, optional sign, then
either one of the special words `inf`/`infinity`/`nan` (case-insensitive) or
a decimal literal.  `none` models a raised `ValueError`.  (Underscored and
non-ASCII digit literals are not modelled.) -/
def pyfloat? (s : String) : Option PFloat :=
  let cs := pyStrip s.toList
  let (neg, rest) : Bool × List Char :=
    match cs with
    | '+' :: r => (false, r)
    | '-' :: r => (true, r)
    | r => (false, r)
  let low := lowerChars rest
  if low = "inf".toList || low = "infinity".toList then
    some (if neg then PFloat.neginf else PFloat.inf)
  else if low = "nan".toList then some PFloat.nan
  else
    match parseDecimalCore rest with
    | none => none
    | some q => some (PFloat.finite (if neg then -q else q))

/-- Python `int(s)` on a string: strip whitespace, optional sign, digits
only.  `none` models a raised `ValueError`. -/
def pyintOfString? (s : String) : Option ℤ :=
  parseSignedDigits (pyStrip s.toList)

/-- Python `int(f)` on a float: truncation toward zero for finite values,
`OverflowError` for the infinities, `ValueError` for `nan`. -/
def pyIntOfFloat (f : PFloat) : Except String ℤ :=
  match f with
  | .finite q => .ok (pytrunc q)
  | .inf => .error "OverflowError"
  | .neginf => .error "OverflowError"
  | .nan => .error "ValueError"

/-- Multiplication of a Python float by a positive integer multiplier
(`float * int`); finite values are exact (overflow to `inf` of huge finite
products is not modelled), specials are absorbing. -/
def pfloatMulNat (f : PFloat) (m : ℕ) : PFloat :=
  match f with
  | .finite q => .finite (q * (m : ℚ))
  | x => x

/-- String clean-up done first by `_parse_count` on a string argument:
`str(x).strip().replace(",", "")` (as characters). -/
def count_clean (s : String) : List Char :=
  (pyStrip s.toList).filter (· ≠ ',')

/-- Suffix handling of `_parse_count`: a trailing `万` gives multiplier
10,000, a trailing `亿` gives 100,000,000, each stripped before parsing;
otherwise multiplier 1. -/
def count_mult_split (s : List Char) : ℕ × List Char :=
  if s.getLast? = some '万' then (10000, s.dropLast)
  else if s.getLast? = some '亿' then (100000000, s.dropLast)
  else (1, s)

/-- Embedding of `_parse_count` (ces_model.py lines 54-81): parse the count
field of a note.  `None → 0`; `int`/`float` are converted with `int(x)`
(which raises on non-finite floats — there is no `try` around this call);
strings are stripped, commas removed, the `万`/`亿` suffix converted to a
multiplier, and the remainder parsed with `float`; the final
`int(float(s) * mult)` sits in a `try/except ValueError`, so a `ValueError`
(unparsable string, or `nan`) yields `0` while an `OverflowError` (infinite
value) propagates. -/
def _parse_count (x : CVal) : Except String ℤ :=
  match x with
  | .vnone => .ok 0
  | .vint n => .ok n
  | .vfloat f => pyIntOfFloat f
  | .vstr str =>
    let s := count_clean str
    if s.isEmpty then .ok 0
    else
      let ms := count_mult_split s
      match pyfloat? (String.mk ms.2) with
      | none => .ok 0
      | some f =>
        match pyIntOfFloat (pfloatMulNat f ms.1) with
        | .ok n => .ok n
        | .error e => if e = "ValueError" then .ok 0 else .error e

/-- Derived record of normalized engagement counts attached to a note as
`signals`. -/
structure Signals where
  like : ℤ
  collect : ℤ
  comment : ℤ
  share : ℤ
  follow : ℤ
deriving DecidableEq

/-- A content item (Python dict).  Original fields are the ones read by the
core; `signals`, `ces`, `time_weight`, `weighted_ces` and `rank` are the
derived fields added by enrichment (`none` = key absent); `extra` stands for
all further key/value pairs of the open-ended record. -/
structure Note where
  ntype : Option String
  title : Option String
  desc : Option String
  tag_list : Option String
  liked_count : CVal
  collected_count : CVal
  comment_count : CVal
  share_count : CVal
  follow_count : Option CVal
  last_update_time : CVal
  time : CVal
  last_modify_ts : CVal
  signals : Option Signals
  ces : Option ℚ
  time_weight : Option ℚ
  weighted_ces : Option ℚ
  rank : Option ℤ
  extra : List (String × String)
deriving DecidableEq

/-- Note with every field absent, used as the out-of-range default of heap
reads. -/
def default_note : Note :=
  ⟨none, none, none, none, .vnone, .vnone, .vnone, .vnone, none,
   .vnone, .vnone, .vnone, none, none, none, none, none, []⟩

/-- Projection onto the original (caller-supplied) fields of a note: the
fields that enrichment must pass through unchanged. -/
def original_fields (n : Note) :=
  (n.ntype, n.title, n.desc, n.tag_list, n.liked_count, n.collected_count,
   n.comment_count, n.share_count, n.follow_count, n.last_update_time,
   n.time, n.last_modify_ts, n.extra)

/-- Embedding of `compute_ces` (ces_model.py lines 118-144): parse the five
count fields (`follow_count` defaulting to the integer `0` when the key is
absent), compute `ces = like*1 + collect*1 + comment*4 + share*4 + follow*8`
and return the augmented copy `dict(note)` with `signals` and the float
`ces` added.  A raise from `_parse_count` propagates. -/
def compute_ces (note : Note) : Except String Note := do
  let like_ ← _parse_count note.liked_count
  let collect_ ← _parse_count note.collected_count
  let comment_ ← _parse_count note.comment_count
  let share_ ← _parse_count note.share_count
  let follow_ ← _parse_count (note.follow_count.getD (.vint 0))
  let ces : ℤ := like_ * 1 + collect_ * 1 + comment_ * 4 + share_ * 4 + follow_ * 8
  .ok { note with
        signals := some ⟨like_, collect_, comment_, share_, follow_⟩,
        ces := some (ces : ℚ) }

/-- Python `int(ms_val)` for the union of value shapes a timestamp field can
have, inside `try/except Exception` (every raise is caught and treated as
"invalid"). -/
def pyIntOfVal (v : CVal) : Option ℤ :=
  match v with
  | .vnone => none
  | .vint n => some n
  | .vfloat f => match pyIntOfFloat f with
    | .ok n => some n
    | .error _ => none
  | .vstr s => pyintOfString? s

/-- Embedding of `_epoch_ms_to_hours_ago` (ces_model.py lines 84-94) with
the clock passed explicitly: convert a millisecond epoch value to an age in
hours; invalid or non-positive values give `none`; a future timestamp is
clamped to age `0`. -/
def _epoch_ms_to_hours_ago (ms_val : CVal) (now_ms : ℤ) : Option ℚ :=
  match pyIntOfVal ms_val with
  | none => none
  | some ms =>
    if ms ≤ 0 then none
    else some (((max 0 (now_ms - ms) : ℤ) : ℚ) / 1000 / 3600)

/-- Age lookup shared by `apply_time_weight` and the recency filter: read
`last_update_time`, then `time`, then `last_modify_ts`, in that priority
order, keeping the first value that converts. -/
def hours_ago_of (n : Note) (now_ms : ℤ) : Option ℚ :=
  match _epoch_ms_to_hours_ago n.last_update_time now_ms with
  | some h => some h
  | none =>
    match _epoch_ms_to_hours_ago n.time now_ms with
    | some h => some h
    | none => _epoch_ms_to_hours_ago n.last_modify_ts now_ms

/-- Embedding of `_time_decay_weight` (ces_model.py lines 97-107) inside the
rational pipeline, with `math.pow(0.5, ·)` abstracted as `powHalf`:
weight `1` for unknown age or non-positive half-life, else
`powHalf (hours_ago / half_life)`. -/
def _time_decay_weight (powHalf : ℚ → ℚ) (hours_ago : Option ℚ)
    (half_life_hours : ℚ) : ℚ :=
  match hours_ago with
  | none => 1
  | some h => if half_life_hours ≤ 0 then 1 else powHalf (h / half_life_hours)

open Classical in
/-- Exact-real semantics of `_time_decay_weight` (ces_model.py lines
97-107): `0.5 ** (hours_ago / half_life)` as a real power.  This is the
mathematical function the numerical contract of the decay weight describes. -/
noncomputable def time_decay_weight_real (hours_ago : Option ℝ)
    (half_life_hours : ℝ) : ℝ :=
  match hours_ago with
  | none => 1
  | some h =>
    if half_life_hours ≤ 0 then 1 else (0.5 : ℝ) ^ (h / half_life_hours)

/-- Embedding of `apply_time_weight` (ces_model.py lines 147-160): add the
`time_weight` and `weighted_ces = ces * weight` fields to an enriched note.
In the source this updates the given dict in place; the in-place character
is modelled separately by `apply_time_weight_heap`. -/
def apply_time_weight (powHalf : ℚ → ℚ) (e : Note) (half_life_hours : ℚ)
    (now_ms : ℤ) : Note :=
  let weight := _time_decay_weight powHalf (hours_ago_of e now_ms) half_life_hours
  { e with time_weight := some weight,
           weighted_ces := some (e.ces.getD 0 * weight) }

/-- Test whether `p` occurs as a left factor of `t`. -/
def leadMatch : List Char → List Char → Bool
  | [], _ => true
  | _ :: _, [] => false
  | a :: as, b :: bs => a == b && leadMatch as bs

/-- Python `p in t` for strings: `p` occurs as a contiguous substring of
`t`. -/
def containsSub : List Char → List Char → Bool
  | t, p =>
    match t with
    | [] => p.isEmpty
    | _ :: rest => leadMatch p t || containsSub rest p

/-- Embedding of `_text_contains_any` (ces_model.py): does the lower-cased
text contain any of the lower-cased keywords? -/
def _text_contains_any (text : String) (keywords : List String) : Bool :=
  let t := lowerChars text.toList
  keywords.any (fun k => containsSub t (lowerChars k.toList))

/-- Embedding of the `CESFilterConfig` dataclass.  Floats are rationals;
`yield_every` only controls cooperative yielding, which has no observable
effect on the produced value. -/
structure CESFilterConfig where
  min_ces : ℚ
  min_weighted_ces : ℚ
  top_k : Option ℤ
  top_percent : Option ℚ
  enable_time_decay : Bool
  half_life_hours : ℚ
  recency_days : Option ℤ
  allowed_types : Option (List String)
  required_keywords : Option (List String)
  exclude_keywords : Option (List String)
  yield_every : ℤ

/-- Default values of the `CESFilterConfig` dataclass. -/
def default_config : CESFilterConfig :=
  ⟨0, 0, none, none, true, 48, none, none, none, none, 1000⟩

/-- Embedding of `_passes_basic_filters` (ces_model.py lines 163-196): type
filter, then keyword filters on `title + " " + desc + " " + tag_list`, then
the recent-N-days filter.  A `None` or empty config field skips the
corresponding filter (Python truthiness). -/
def _passes_basic_filters (note : Note) (cfg : CESFilterConfig)
    (now_ms : ℤ) : Bool :=
  let typeOk : Bool :=
    match cfg.allowed_types with
    | none => true
    | some ts =>
      if ts.isEmpty then true
      else
        let ntype := lowerChars (note.ntype.getD "").toList
        (ts.map (fun x => lowerChars x.toList)).contains ntype
  let combine_text :=
    note.title.getD "" ++ " " ++ note.desc.getD "" ++ " " ++ note.tag_list.getD ""
  let requiredOk : Bool :=
    match cfg.required_keywords with
    | none => true
    | some ks => if ks.isEmpty then true else _text_contains_any combine_text ks
  let excludeOk : Bool :=
    match cfg.exclude_keywords with
    | none => true
    | some ks => if ks.isEmpty then true else !(_text_contains_any combine_text ks)
  let recencyOk : Bool :=
    match cfg.recency_days with
    | none => true
    | some d =>
      if 0 < d then
        match hours_ago_of note now_ms with
        | none => false
        | some h => decide (h ≤ (d : ℚ) * 24)
      else true
  typeOk && requiredOk && excludeOk && recencyOk

/-- Stage 1 of `score_and_filter_notes`: keep the notes passing the basic
filters, in order. -/
def basic_stage (cfg : CESFilterConfig) (now_ms : ℤ) (l : List Note) : List Note :=
  l.filter (fun n => _passes_basic_filters n cfg now_ms)

/-- Stage 2 body of `score_and_filter_notes`: score one note and, when time
decay is enabled, weight it; otherwise set `time_weight = 1` and
`weighted_ces = ces`. -/
def enrich_note (powHalf : ℚ → ℚ) (cfg : CESFilterConfig) (now_ms : ℤ)
    (n : Note) : Except String Note := do
  let e ← compute_ces n
  if cfg.enable_time_decay then
    pure (apply_time_weight powHalf e cfg.half_life_hours now_ms)
  else
    pure { e with time_weight := some 1, weighted_ces := some (e.ces.getD 0) }

/-- Stage 2 of `score_and_filter_notes` over the surviving list, in order;
the first raise aborts the run, as in the Python loop. -/
def enrich_list (powHalf : ℚ → ℚ) (cfg : CESFilterConfig) (now_ms : ℤ) :
    List Note → Except String (List Note)
  | [] => .ok []
  | n :: rest => do
    let e ← enrich_note powHalf cfg now_ms n
    let es ← enrich_list powHalf cfg now_ms rest
    .ok (e :: es)

/-- Stage 3 of `score_and_filter_notes`: threshold filter
`ces >= min_ces and weighted_ces >= min_weighted_ces` (both fields are
present on every enriched note). -/
def threshold_stage (cfg : CESFilterConfig) (l : List Note) : List Note :=
  l.filter (fun e =>
    decide (cfg.min_ces ≤ e.ces.getD 0) && decide (cfg.min_weighted_ces ≤ e.weighted_ces.getD 0))

/-- Sort order of stage 4 (`enriched.sort(key=weighted_ces, reverse=True)`):
`a` may precede `b` iff the key of `b` is at most the key of `a`. -/
def pipe_le (a b : Note) : Prop := b.weighted_ces.getD 0 ≤ a.weighted_ces.getD 0

instance : DecidableRel pipe_le := fun a b =>
  inferInstanceAs (Decidable (_ ≤ _))

instance : IsTotal Note pipe_le :=
  ⟨fun a b => le_total (b.weighted_ces.getD 0) (a.weighted_ces.getD 0)⟩

instance : IsTrans Note pipe_le :=
  ⟨fun _ _ _ h1 h2 => le_trans h2 h1⟩

/-- Stage 4 of `score_and_filter_notes`: stable descending sort by
`weighted_ces`. -/
def sort_stage (l : List Note) : List Note := l.insertionSort pipe_le

/-- Percent part of stage 5: when `0 < top_percent < 1`, keep the first
`max(1, int(len * top_percent))` items; any other set value is silently
ignored. -/
def percent_cut {α : Type} (cfg : CESFilterConfig) (l : List α) : List α :=
  match cfg.top_percent with
  | some p =>
    if 0 < p ∧ p < 1 then l.take (max 1 (pytrunc ((l.length : ℚ) * p))).toNat
    else l
  | none => l

/-- Top-K part of stage 5: when `top_k` is set and positive, keep the first
`top_k` items. -/
def topk_cut {α : Type} (cfg : CESFilterConfig) (l : List α) : List α :=
  match cfg.top_k with
  | some k => if 0 < k then l.take k.toNat else l
  | none => l

/-- Stage 5 of `score_and_filter_notes` (ces_model.py lines 255-260): the
percent cut followed by the top-K cut. -/
def apply_top_truncation {α : Type} (cfg : CESFilterConfig) (l : List α) : List α :=
  topk_cut cfg (percent_cut cfg l)

/-- Stages 1-3 of `score_and_filter_notes`: the survivor list that stage 4
sorts.  Factored out to state stability of the sort against the pre-sort
order. -/
def survivors (powHalf : ℚ → ℚ) (l : List Note) (cfg : CESFilterConfig)
    (now_ms : ℤ) : Except String (List Note) := do
  let e ← enrich_list powHalf cfg now_ms (basic_stage cfg now_ms l)
  .ok (threshold_stage cfg e)

/-- Body of `score_and_filter_notes` on an actual list: basic filter (with
early return on an empty survivor set), enrichment, threshold filter (with
early return), stable sort, truncation. -/
def score_pipeline (powHalf : ℚ → ℚ) (l : List Note) (cfg : CESFilterConfig)
    (now_ms : ℤ) : Except String (List Note) := do
  let filtered := basic_stage cfg now_ms l
  if filtered.isEmpty then .ok []
  else do
    let enriched ← enrich_list powHalf cfg now_ms filtered
    let surviving := threshold_stage cfg enriched
    if surviving.isEmpty then .ok []
    else .ok (apply_top_truncation cfg (sort_stage surviving))

/-- Caller-side shape of the `notes` argument: `None`, an actual list, or a
non-sequence, non-iterable object with the given truthiness (e.g. an
integer). -/
inductive PyNotes where
  | pynone
  | pylist (l : List Note)
  | pyother (truthy : Bool)

/-- Python falsiness of the `notes` argument, the test done by
`if not notes`. -/
def notes_falsy : PyNotes → Bool
  | .pynone => true
  | .pylist l => l.isEmpty
  | .pyother b => !b

/-- Embedding of the async entry point `score_and_filter_notes`
(ces_model.py lines 202-260).  `if not notes: return []` accepts any falsy
argument; a truthy non-sequence object reaches `enumerate(notes)` and
raises a `TypeError`. -/
def score_and_filter_notes (powHalf : ℚ → ℚ) (notes : PyNotes)
    (cfg : CESFilterConfig) (now_ms : ℤ) : Except String (List Note) :=
  if notes_falsy notes then .ok []
  else
    match notes with
    | .pynone => .ok []
    | .pyother _ => .error "TypeError"
    | .pylist l => score_pipeline powHalf l cfg now_ms

/-- Sort order used by the ranking service
(`key=(weighted_ces, ces), reverse=True`): descending lexicographic
comparison of the pair, i.e. `a` may precede `b` iff `b`'s pair is
lexicographically at most `a`'s. -/
def svc_le (a b : Note) : Prop :=
  b.weighted_ces.getD 0 < a.weighted_ces.getD 0 ∨
    (b.weighted_ces.getD 0 = a.weighted_ces.getD 0 ∧ b.ces.getD 0 ≤ a.ces.getD 0)

instance : DecidableRel svc_le := fun a b =>
  inferInstanceAs (Decidable (_ ∨ _))

instance : IsTotal Note svc_le := by
  constructor
  intro a b
  rcases lt_trichotomy (b.weighted_ces.getD 0) (a.weighted_ces.getD 0) with h | h | h
  · exact Or.inl (Or.inl h)
  · rcases le_total (b.ces.getD 0) (a.ces.getD 0) with hc | hc
    · exact Or.inl (Or.inr ⟨h, hc⟩)
    · exact Or.inr (Or.inr ⟨h.symm, hc⟩)
  · exact Or.inr (Or.inl h)

instance : IsTrans Note svc_le := by
  constructor
  intro a b c hab hbc
  rcases hab with h1 | ⟨h1, h1c⟩
  · rcases hbc with h2 | ⟨h2, _⟩
    · exact Or.inl (h2.trans h1)
    · exact Or.inl (h2 ▸ h1)
  · rcases hbc with h2 | ⟨h2, h2c⟩
    · exact Or.inl (h1 ▸ h2)
    · exact Or.inr ⟨h2.trans h1, h2c.trans h1c⟩

/-- Rank assignment loop of `_rank_and_label` (ces_service.py lines 8-11):
`enumerate(enriched, 1)` sets `item["rank"] = idx`. -/
def rank_go (i : ℤ) : List Note → List Note
  | [] => []
  | e :: rest => { e with rank := some i } :: rank_go (i + 1) rest

/-- Embedding of `_rank_and_label`: add a 1-based `rank` field along the
sorted list. -/
def _rank_and_label (enriched : List Note) : List Note := rank_go 1 enriched

/-- Configuration built by `score_and_sort_by_ces`. -/
def service_config : CESFilterConfig :=
  ⟨0, 0, none, none, true, 48, none, none, none, none, 100⟩

/-- Embedding of the caller-facing service `score_and_sort_by_ces`
(ces_service.py lines 13-27): run the pipeline, re-sort descending by the
pair `(weighted_ces, ces)`, then rank and label. -/
def score_and_sort_by_ces (powHalf : ℚ → ℚ) (notes : List Note)
    (now_ms : ℤ) : Except String (List Note) := do
  let enriched ← score_and_filter_notes powHalf (.pylist notes) service_config now_ms
  .ok (_rank_and_label (enriched.insertionSort svc_le))

/-! Heap model of the dict operations.  A heap is a list of records, an
address is an index into it; `dict(note)` allocates a fresh address, an
in-place field write updates the record at the given address.  Only
`compute_ces` (which copies) and `apply_time_weight` / the no-decay branch
(which write in place) touch records; the other stages only read. -/

/-- Heap semantics of `compute_ces`: read the record at `a`, build the
augmented copy (`dict(note)` plus the two new fields) at a fresh address,
and return that address.  The copy fails exactly when `compute_ces` raises. -/
def compute_ces_heap (H : List Note) (a : ℕ) : Except String (List Note × ℕ) :=
  match compute_ces (H.getD a default_note) with
  | .error e => .error e
  | .ok e => .ok (H ++ [e], H.length)

/-- Heap semantics of `apply_time_weight`: write the `time_weight` and
`weighted_ces` fields in place on the record at the given address `a` and
return the same address. -/
def apply_time_weight_heap (powHalf : ℚ → ℚ) (H : List Note) (a : ℕ)
    (half_life_hours : ℚ) (now_ms : ℤ) : List Note × ℕ :=
  (H.set a (apply_time_weight powHalf (H.getD a default_note) half_life_hours now_ms), a)

/-- Heap semantics of the `enable_time_decay = False` branch: write
`time_weight = 1` and `weighted_ces = ces` in place at address `a`. -/
def set_no_decay_heap (H : List Note) (a : ℕ) : List Note × ℕ :=
  let e := H.getD a default_note
  (H.set a { e with time_weight := some 1, weighted_ces := some (e.ces.getD 0) }, a)

/-- Heap semantics of the enrichment loop of `score_and_filter_notes`:
process the surviving addresses in order, collecting the addresses of the
enriched records. -/
def enrich_loop_heap (powHalf : ℚ → ℚ) (cfg : CESFilterConfig) (now_ms : ℤ) :
    List Note → List ℕ → Except String (List Note × List ℕ)
  | H, [] => .ok (H, [])
  | H, a :: rest => do
    let (H1, b) ← compute_ces_heap H a
    let (H2, c) :=
      if cfg.enable_time_decay then
        apply_time_weight_heap powHalf H1 b cfg.half_life_hours now_ms
      else set_no_decay_heap H1 b
    let (H3, out) ← enrich_loop_heap powHalf cfg now_ms H2 rest
    .ok (H3, c :: out)

/-- Heap semantics of the whole pipeline body on a heap `H` and the list of
addresses of the caller's notes: stages 1 and 3-5 only read the heap;
stage 2 is `enrich_loop_heap`. -/
def score_pipeline_heap (powHalf : ℚ → ℚ) (H : List Note) (addrs : List ℕ)
    (cfg : CESFilterConfig) (now_ms : ℤ) : Except String (List Note × List ℕ) :=
  let filtered := addrs.filter (fun a => _passes_basic_filters (H.getD a default_note) cfg now_ms)
  if filtered.isEmpty then .ok (H, [])
  else do
    let (H2, eaddrs) ← enrich_loop_heap powHalf cfg now_ms H filtered
    let surviving := eaddrs.filter (fun a =>
      let e := (H2.getD a default_note)
      decide (cfg.min_ces ≤ e.ces.getD 0) && decide (cfg.min_weighted_ces ≤ e.weighted_ces.getD 0))
    if surviving.isEmpty then .ok (H2, [])
    else
      let sorted := surviving.insertionSort
        (fun x y => (H2.getD y default_note).weighted_ces.getD 0 ≤ (H2.getD x default_note).weighted_ces.getD 0)
      .ok (H2, apply_top_truncation cfg sorted)


/-! ### Helper lemmas -/

/-- Elimination principle for a successful `compute_ces`: it exposes the five
parse results and the exact shape of the augmented copy. -/
theorem compute_ces_ok_elim {note e : Note} (h : compute_ces note = Except.ok e) :
    ∃ l c cm sh f : ℤ,
      _parse_count note.liked_count = .ok l ∧
      _parse_count note.collected_count = .ok c ∧
      _parse_count note.comment_count = .ok cm ∧
      _parse_count note.share_count = .ok sh ∧
      _parse_count (note.follow_count.getD (.vint 0)) = .ok f ∧
      e = { note with
            signals := some ⟨l, c, cm, sh, f⟩,
            ces := some ((l * 1 + c * 1 + cm * 4 + sh * 4 + f * 8 : ℤ) : ℚ) } := by
  unfold compute_ces at h
  simp only [bind, Except.bind] at h
  repeat' split at h
  any_goals exact Except.noConfusion h
  rename_i x1 l hl x2 c hc x3 cm hcm x4 sh hsh x5 f hf
  exact ⟨l, c, cm, sh, f, hl, hc, hcm, hsh, hf, ((Except.ok.injEq _ _).mp h).symm⟩

/-- Truncation toward zero agrees with the floor on non-negative rationals. -/
theorem pytrunc_eq_floor {q : ℚ} (h : 0 ≤ q) : pytrunc q = ⌊q⌋ := by
  unfold pytrunc
  rw [Int.tdiv_eq_ediv (Rat.num_nonneg.mpr h) (Int.natCast_nonneg q.den)]
  conv_rhs => rw [← Rat.num_div_den q]
  rw [Rat.floor_intCast_div_natCast]

/-- Truncation toward zero agrees with the ceiling on non-positive
rationals. -/
theorem pytrunc_eq_ceil {q : ℚ} (h : q ≤ 0) : pytrunc q = ⌈q⌉ := by
  have h2 : 0 ≤ -q := neg_nonneg.mpr h
  have hneg : pytrunc q = -pytrunc (-q) := by
    unfold pytrunc
    rw [Rat.neg_num, Rat.neg_den, Int.neg_tdiv, neg_neg]
  rw [hneg, pytrunc_eq_floor h2, ← Int.ceil_neg, neg_neg]

/-- Truncation toward zero preserves non-negativity. -/
theorem pytrunc_nonneg {q : ℚ} (h : 0 ≤ q) : 0 ≤ pytrunc q :=
  Int.tdiv_nonneg (Rat.num_nonneg.mpr h) (Int.natCast_nonneg q.den)

/-- Note of the score-formula example: raw signals
`{like: 10, collect: 5, comment: 2, share: 1}` and no `follow_count` key. -/
def c1_note : Note :=
  { default_note with
    liked_count := .vint 10,
    collected_count := .vint 5,
    comment_count := .vint 2,
    share_count := .vint 1 }

/-- Enriched form of `c1_note` as computed by the embedded `compute_ces`. -/
def c1_enriched : Note := (compute_ces c1_note).toOption.getD default_note

/-- C1: for every content item, `compute_ces` returns an augmented record
whose `ces` field equals `like*1 + collect*1 + comment*4 + share*4 +
follow*8` as a float, where each component is the Count-Normalizer result
of the corresponding raw count field and `follow` is `0` when the
`follow_count` key is absent; in particular, for raw signals
`{like: 10, collect: 5, comment: 2, share: 1, follow: 0}` the `ces` is
`27.0`. -/
theorem compute_ces_score_formula :
    (∀ note e : Note, compute_ces note = .ok e →
      ∃ s : Signals, e.signals = some s ∧
        _parse_count note.liked_count = .ok s.like ∧
        _parse_count note.collected_count = .ok s.collect ∧
        _parse_count note.comment_count = .ok s.comment ∧
        _parse_count note.share_count = .ok s.share ∧
        _parse_count (note.follow_count.getD (.vint 0)) = .ok s.follow ∧
        e.ces = some ((s.like * 1 + s.collect * 1 + s.comment * 4 + s.share * 4 + s.follow * 8 : ℤ) : ℚ)) ∧
    (∀ note e : Note, note.follow_count = none → compute_ces note = .ok e →
      ∃ s : Signals, e.signals = some s ∧ s.follow = 0) ∧
    compute_ces c1_note = .ok c1_enriched ∧
    c1_enriched.signals = some ⟨10, 5, 2, 1, 0⟩ ∧
    c1_enriched.ces = some (27 : ℚ) := by
  refine ⟨?_, ?_, by decide, by decide, by decide⟩
  · intro note e h
    obtain ⟨l, c, cm, sh, f, hl, hc, hcm, hsh, hf, he⟩ := compute_ces_ok_elim h
    subst he
    exact ⟨⟨l, c, cm, sh, f⟩, rfl, hl, hc, hcm, hsh, hf, rfl⟩
  · intro note e hfc h
    obtain ⟨l, c, cm, sh, f, hl, hc, hcm, hsh, hf, he⟩ := compute_ces_ok_elim h
    subst he
    refine ⟨⟨l, c, cm, sh, f⟩, rfl, ?_⟩
    rw [hfc] at hf
    have : (Except.ok 0 : Except String ℤ) = .ok f := hf
    exact (((Except.ok.injEq _ _).mp this)).symm

/-- Witness for `compute_ces_score_formula` at the concrete example note. -/
theorem compute_ces_score_formula_witness :
    (∃ s : Signals, c1_enriched.signals = some s ∧
        _parse_count c1_note.liked_count = .ok s.like ∧
        _parse_count c1_note.collected_count = .ok s.collect ∧
        _parse_count c1_note.comment_count = .ok s.comment ∧
        _parse_count c1_note.share_count = .ok s.share ∧
        _parse_count (c1_note.follow_count.getD (.vint 0)) = .ok s.follow ∧
        c1_enriched.ces = some ((s.like * 1 + s.collect * 1 + s.comment * 4 + s.share * 4 + s.follow * 8 : ℤ) : ℚ)) ∧
    (∃ s : Signals, c1_enriched.signals = some s ∧ s.follow = 0) :=
  ⟨compute_ces_score_formula.1 c1_note c1_enriched (by decide),
   compute_ces_score_formula.2.1 c1_note c1_enriched (by decide) (by decide)⟩

/-- C2: `_parse_count` maps `None` to `0`, a numeric input to its integer
truncation toward zero, and a string input to the truncation of the parse of
the cleaned string (whitespace stripped, commas removed) times the suffix
multiplier (`万` = 10,000, `亿` = 100,000,000, suffix stripped before
parsing); an empty cleaned string yields `0`; with the quoted examples. -/
theorem normalize_count_spec :
    (_parse_count .vnone = .ok 0) ∧
    (∀ n : ℤ, _parse_count (.vint n) = .ok n) ∧
    (∀ q : ℚ, _parse_count (.vfloat (.finite q)) = .ok (pytrunc q)) ∧
    (∀ q : ℚ, (0 ≤ q → pytrunc q = ⌊q⌋) ∧ (q ≤ 0 → pytrunc q = ⌈q⌉)) ∧
    (∀ s : String, count_clean s = [] → _parse_count (.vstr s) = .ok 0) ∧
    (∀ cs : List Char,
      (cs.getLast? = some '万' → count_mult_split cs = (10000, cs.dropLast)) ∧
      (cs.getLast? ≠ some '万' → cs.getLast? = some '亿' → count_mult_split cs = (100000000, cs.dropLast)) ∧
      (cs.getLast? ≠ some '万' → cs.getLast? ≠ some '亿' → count_mult_split cs = (1, cs))) ∧
    (∀ (s : String) (q : ℚ), count_clean s ≠ [] →
      pyfloat? (String.mk (count_mult_split (count_clean s)).2) = some (.finite q) →
      _parse_count (.vstr s) = .ok (pytrunc (q * ((count_mult_split (count_clean s)).1 : ℚ)))) ∧
    (_parse_count (.vstr "5.6万") = .ok 56000 ∧
     _parse_count (.vstr "1.1亿") = .ok 110000000 ∧
     _parse_count (.vstr "2,380") = .ok 2380 ∧
     _parse_count (.vstr "abc") = .ok 0) := by
  refine ⟨rfl, fun n => rfl, fun q => rfl, ?_, ?_, ?_, ?_, by decide, by decide, by decide, by decide⟩
  · exact fun q => ⟨fun h => pytrunc_eq_floor h, fun h => pytrunc_eq_ceil h⟩
  · intro s h
    simp [_parse_count, h]
  · intro cs
    refine ⟨fun h1 => ?_, fun h1 h2 => ?_, fun h1 h2 => ?_⟩
    · simp [count_mult_split, h1]
    · simp [count_mult_split, h1, h2]
    · simp [count_mult_split, h1, h2]
  · intro s q hne hq
    have hie : (count_clean s).isEmpty = false := by
      cases hc : count_clean s with
      | nil => exact absurd hc hne
      | cons a l => rfl
    simp only [_parse_count, hie, Bool.false_eq_true, if_false, hq]
    rfl

/-- Witness for `normalize_count_spec`: each hypothesis-bearing conjunct
applied at a concrete input. -/
theorem normalize_count_spec_witness :
    (pytrunc (28/5 : ℚ) = ⌊(28/5 : ℚ)⌋) ∧
    (pytrunc (-(5/2) : ℚ) = ⌈(-(5/2) : ℚ)⌉) ∧
    (_parse_count (.vstr " , ") = .ok 0) ∧
    (count_mult_split ("5.6万".toList) = (10000, "5.6".toList)) ∧
    (_parse_count (.vstr "5.6万") = .ok (pytrunc ((28/5 : ℚ) * ((count_mult_split (count_clean "5.6万")).1 : ℚ)))) :=
  ⟨(normalize_count_spec.2.2.2.1 (28/5)).1 (by norm_num),
   (normalize_count_spec.2.2.2.1 (-(5/2))).2 (by norm_num),
   normalize_count_spec.2.2.2.2.1 " , " (by decide),
   by
     have := (normalize_count_spec.2.2.2.2.2.1 ("5.6万".toList)).1 (by decide)
     simpa using this,
   normalize_count_spec.2.2.2.2.2.2.1 "5.6万" (28/5) (by decide) (by decide)⟩

/-- C7 (divergence): `_parse_count` is not total.  A count string that
parses to an infinite float (`"inf"`, `"Infinity"`, …; in CPython also any
overflowing literal such as `"1e999"`) reaches `int(float(s) * mult)`
whose `OverflowError` is not caught by `except ValueError` and propagates;
the same happens for an actual infinite float value passed directly.  A
`nan` is caught (`int(nan)` raises `ValueError`) and yields `0`. -/
theorem parse_count_inf_raises :
    _parse_count (.vstr "inf") = .error "OverflowError" ∧
    _parse_count (.vstr " -Infinity ") = .error "OverflowError" ∧
    _parse_count (.vstr "inf万") = .error "OverflowError" ∧
    _parse_count (.vfloat .inf) = .error "OverflowError" ∧
    _parse_count (.vfloat .nan) = .error "ValueError" ∧
    _parse_count (.vstr "nan") = .ok 0 ∧
    ¬ (∀ x : CVal, ∃ n : ℤ, _parse_count x = .ok n) := by
  refine ⟨by decide, by decide, by decide, by decide, by decide, by decide, ?_⟩
  intro h
  obtain ⟨n, hn⟩ := h (.vstr "inf")
  have h1 : _parse_count (.vstr "inf") = .error "OverflowError" := by decide
  rw [h1] at hn
  exact Except.noConfusion hn

/-- Note of the negative-signal counterexample: `liked_count` is the
integer `-5`. -/
def c8_note : Note := { default_note with liked_count := .vint (-5) }

/-- Enriched form of `c8_note` as computed by the embedded `compute_ces`. -/
def c8_enriched : Note := (compute_ces c8_note).toOption.getD default_note

/-- C8 (counterexample): the signals record is not always non-negative.
For the item with raw `liked_count = -5`, `compute_ces` succeeds and
attaches `signals.like = -5 < 0`. -/
theorem signals_nonneg_counterexample :
    compute_ces c8_note = .ok c8_enriched ∧
    c8_enriched.signals = some ⟨-5, 0, 0, 0, 0⟩ ∧
    ¬ (∀ (note e : Note) (s : Signals), compute_ces note = .ok e → e.signals = some s →
        0 ≤ s.like ∧ 0 ≤ s.collect ∧ 0 ≤ s.comment ∧ 0 ≤ s.share ∧ 0 ≤ s.follow) := by
  refine ⟨by decide, by decide, ?_⟩
  intro hall
  have := (hall c8_note c8_enriched ⟨-5, 0, 0, 0, 0⟩ (by decide) (by decide)).1
  norm_num at this

/-- Condition under which a raw count value is guaranteed to normalize to a
non-negative integer: it is absent, a non-negative number, or a string
whose parsed numeric residual is non-negative (infinite values are excluded
by the raise of `_parse_count`). -/
def count_nonneg_src (x : CVal) : Prop :=
  match x with
  | .vnone => True
  | .vint n => 0 ≤ n
  | .vfloat (.finite q) => 0 ≤ q
  | .vfloat _ => True
  | .vstr s => ∀ q : ℚ,
      pyfloat? (String.mk (count_mult_split (count_clean s)).2) = some (.finite q) → 0 ≤ q

/-- Count normalization is non-negative on non-negative sources. -/
theorem parse_count_nonneg {x : CVal} {n : ℤ} (hx : count_nonneg_src x)
    (h : _parse_count x = .ok n) : 0 ≤ n := by
  cases x with
  | vnone =>
    have : (0 : ℤ) = n := (Except.ok.injEq _ _).mp h
    omega
  | vint m =>
    have : m = n := (Except.ok.injEq _ _).mp h
    subst this
    exact hx
  | vfloat f =>
    cases f with
    | finite q =>
      have : pytrunc q = n := (Except.ok.injEq _ _).mp h
      subst this
      exact pytrunc_nonneg hx
    | inf => exact Except.noConfusion h
    | neginf => exact Except.noConfusion h
    | nan => exact Except.noConfusion h
  | vstr s =>
    simp only [_parse_count] at h
    by_cases hc : (count_clean s).isEmpty = true
    · rw [if_pos hc] at h
      have : (0 : ℤ) = n := (Except.ok.injEq _ _).mp h
      omega
    · rw [if_neg hc] at h
      cases hq : pyfloat? (String.mk (count_mult_split (count_clean s)).2) with
      | none =>
        rw [hq] at h
        have : (0 : ℤ) = n := (Except.ok.injEq _ _).mp h
        omega
      | some f =>
        rw [hq] at h
        cases f with
        | finite q =>
          have hqn : 0 ≤ q := hx q hq
          have : pytrunc (q * ((count_mult_split (count_clean s)).1 : ℚ)) = n :=
            (Except.ok.injEq _ _).mp h
          subst this
          exact pytrunc_nonneg (mul_nonneg hqn (by positivity))
        | inf => exact Except.noConfusion h
        | neginf => exact Except.noConfusion h
        | nan =>
          have : (0 : ℤ) = n := (Except.ok.injEq _ _).mp h
          omega

/-- C8 (amended): the signals record attached by `compute_ces` consists of
the integer Count-Normalizer results of the five raw fields, and each
component is non-negative whenever its raw source is (absent, a
non-negative number, or a string with non-negative parsed value); a
negative raw value such as `liked_count = -5` yields a negative signal. -/
theorem signals_spec_amended :
    ∀ (note e : Note) (s : Signals), compute_ces note = .ok e → e.signals = some s →
      (_parse_count note.liked_count = .ok s.like ∧
       _parse_count note.collected_count = .ok s.collect ∧
       _parse_count note.comment_count = .ok s.comment ∧
       _parse_count note.share_count = .ok s.share ∧
       _parse_count (note.follow_count.getD (.vint 0)) = .ok s.follow) ∧
      ((count_nonneg_src note.liked_count → 0 ≤ s.like) ∧
       (count_nonneg_src note.collected_count → 0 ≤ s.collect) ∧
       (count_nonneg_src note.comment_count → 0 ≤ s.comment) ∧
       (count_nonneg_src note.share_count → 0 ≤ s.share) ∧
       (count_nonneg_src (note.follow_count.getD (.vint 0)) → 0 ≤ s.follow)) := by
  intro note e s h hs
  obtain ⟨l, c, cm, sh, f, hl, hc, hcm, hsh, hf, he⟩ := compute_ces_ok_elim h
  subst he
  have hsig : (⟨l, c, cm, sh, f⟩ : Signals) = s := by
    simpa using hs
  subst hsig
  exact ⟨⟨hl, hc, hcm, hsh, hf⟩,
    fun hx => parse_count_nonneg hx hl,
    fun hx => parse_count_nonneg hx hc,
    fun hx => parse_count_nonneg hx hcm,
    fun hx => parse_count_nonneg hx hsh,
    fun hx => parse_count_nonneg hx hf⟩

/-- Witness for `signals_spec_amended` at the concrete example note. -/
theorem signals_spec_amended_witness :
    (_parse_count c1_note.liked_count = .ok (10 : ℤ) ∧
     _parse_count c1_note.collected_count = .ok (5 : ℤ) ∧
     _parse_count c1_note.comment_count = .ok (2 : ℤ) ∧
     _parse_count c1_note.share_count = .ok (1 : ℤ) ∧
     _parse_count (c1_note.follow_count.getD (.vint 0)) = .ok (0 : ℤ)) ∧
    ((count_nonneg_src c1_note.liked_count → 0 ≤ (10 : ℤ)) ∧
     (count_nonneg_src c1_note.collected_count → 0 ≤ (5 : ℤ)) ∧
     (count_nonneg_src c1_note.comment_count → 0 ≤ (2 : ℤ)) ∧
     (count_nonneg_src c1_note.share_count → 0 ≤ (1 : ℤ)) ∧
     (count_nonneg_src (c1_note.follow_count.getD (.vint 0)) → 0 ≤ (0 : ℤ))) :=
  signals_spec_amended c1_note c1_enriched ⟨10, 5, 2, 1, 0⟩ (by decide) (by decide)

/-- C6 (counterexample): the pipeline does not return an empty result for
every non-sequence input.  A truthy non-sequence object (e.g. the integer
`1`) passes the `if not notes` guard and raises a `TypeError` when
`enumerate(notes)` iterates it. -/
theorem empty_input_counterexample :
    score_and_filter_notes (fun x => x) (.pyother true) default_config 0 = .error "TypeError" ∧
    ¬ (∀ (powHalf : ℚ → ℚ) (cfg : CESFilterConfig) (now_ms : ℤ) (inp : PyNotes),
        (inp = .pynone ∨ inp = .pylist [] ∨ ∃ b, inp = .pyother b) →
        score_and_filter_notes powHalf inp cfg now_ms = .ok []) := by
  refine ⟨rfl, ?_⟩
  intro h
  have := h (fun x => x) default_config 0 (.pyother true) (Or.inr (Or.inr ⟨true, rfl⟩))
  exact absurd this (by decide)

/-- C6 (amended): for every config, the pipeline returns an empty result,
without raising, when given an empty list, `None`, or any falsy
non-sequence input; a truthy non-sequence (non-iterable) input instead
raises a `TypeError`. -/
theorem empty_input_amended :
    ∀ (powHalf : ℚ → ℚ) (cfg : CESFilterConfig) (now_ms : ℤ),
      score_and_filter_notes powHalf .pynone cfg now_ms = .ok [] ∧
      score_and_filter_notes powHalf (.pylist []) cfg now_ms = .ok [] ∧
      score_and_filter_notes powHalf (.pyother false) cfg now_ms = .ok [] ∧
      score_and_filter_notes powHalf (.pyother true) cfg now_ms = .error "TypeError" :=
  fun _ _ _ => ⟨rfl, rfl, rfl, rfl⟩

/-- Concrete stand-in for the abstracted `math.pow(0.5, ·)` in witnesses
whose configuration disables time decay (the function is then never
applied). -/
def pow_half_id : ℚ → ℚ := fun q => q

/-- Note with a single integer `liked_count`, used to build concrete
pipeline inputs. -/
def demo_note (i : ℤ) : Note := { default_note with liked_count := .vint i }

/-- Ten concrete notes with pairwise distinct scores. -/
def demo_notes : List Note :=
  [demo_note 10, demo_note 9, demo_note 8, demo_note 7, demo_note 6,
   demo_note 5, demo_note 4, demo_note 3, demo_note 2, demo_note 1]

/-- Configuration keeping the top half, decay disabled. -/
def cfg_half : CESFilterConfig :=
  { default_config with enable_time_decay := false, top_percent := some (1/2) }

/-- Configuration keeping the top half and then the top 3, decay disabled. -/
def cfg_half_top3 : CESFilterConfig := { cfg_half with top_k := some 3 }

/-- C4: in the truncation stage on `N` sorted survivors, a `top_percent` in
`(0,1)` first cuts to `max(1, floor(N * top_percent))` (`int()` is a floor
here since the product is non-negative), a `top_percent` outside `(0,1)` is
silently ignored, and afterwards a positive `top_k` keeps the first `top_k`
items of the percent-cut result; concretely, 10 surviving items with
`top_percent = 0.5` give 5 results, and additionally `top_k = 3` gives 3. -/
theorem truncation_spec :
    (∀ (cfg : CESFilterConfig) (l : List Note) (p : ℚ),
      cfg.top_percent = some p → 0 < p → p < 1 →
      percent_cut cfg l = l.take (max 1 (pytrunc ((l.length : ℚ) * p))).toNat ∧
      pytrunc ((l.length : ℚ) * p) = ⌊(l.length : ℚ) * p⌋ ∧
      (l ≠ [] → (percent_cut cfg l).length = (max 1 ⌊(l.length : ℚ) * p⌋).toNat)) ∧
    (∀ (cfg : CESFilterConfig) (l : List Note) (p : ℚ),
      cfg.top_percent = some p → ¬ (0 < p ∧ p < 1) → percent_cut cfg l = l) ∧
    (∀ (cfg : CESFilterConfig) (l : List Note) (k : ℤ),
      cfg.top_k = some k → 0 < k →
      apply_top_truncation cfg l = (percent_cut cfg l).take k.toNat) ∧
    (score_and_filter_notes pow_half_id (.pylist demo_notes) cfg_half 0).toOption.map List.length
      = some 5 ∧
    (score_and_filter_notes pow_half_id (.pylist demo_notes) cfg_half_top3 0).toOption.map List.length
      = some 3 := by
  refine ⟨?_, ?_, ?_, by decide, by decide⟩
  · intro cfg l p hp h0 h1
    have hfl : pytrunc ((l.length : ℚ) * p) = ⌊(l.length : ℚ) * p⌋ :=
      pytrunc_eq_floor (mul_nonneg (by positivity) (le_of_lt h0))
    have heq : percent_cut cfg l = l.take (max 1 (pytrunc ((l.length : ℚ) * p))).toNat := by
      simp only [percent_cut, hp]
      rw [if_pos ⟨h0, h1⟩]
    refine ⟨heq, hfl, ?_⟩
    intro hne
    have hN : 1 ≤ l.length := List.length_pos.mpr hne
    have hlt : ⌊(l.length : ℚ) * p⌋ < (l.length : ℤ) := by
      rw [Int.floor_lt]
      push_cast
      exact mul_lt_of_lt_one_right (by positivity) h1
    rw [heq, hfl, List.length_take]
    omega
  · intro cfg l p hp hnot
    simp only [percent_cut, hp]
    rw [if_neg hnot]
  · intro cfg l k hk h0
    simp only [apply_top_truncation, topk_cut, hk]
    rw [if_pos h0]

/-- Witness for `truncation_spec` at a concrete config and list. -/
theorem truncation_spec_witness :
    (percent_cut cfg_half demo_notes
        = demo_notes.take (max 1 (pytrunc ((demo_notes.length : ℚ) * (1/2)))).toNat ∧
      pytrunc ((demo_notes.length : ℚ) * (1/2)) = ⌊(demo_notes.length : ℚ) * (1/2)⌋ ∧
      (demo_notes ≠ [] →
        (percent_cut cfg_half demo_notes).length = (max 1 ⌊(demo_notes.length : ℚ) * (1/2)⌋).toNat)) ∧
    (percent_cut { default_config with top_percent := some 2 } demo_notes = demo_notes) ∧
    (apply_top_truncation cfg_half_top3 demo_notes
        = (percent_cut cfg_half_top3 demo_notes).take (3 : ℤ).toNat) :=
  ⟨truncation_spec.1 cfg_half demo_notes (1/2) (by decide) (by norm_num) (by norm_num),
   truncation_spec.2.1 _ demo_notes 2 (by decide) (by norm_num),
   truncation_spec.2.2.1 cfg_half_top3 demo_notes 3 (by decide) (by norm_num)⟩

/-- Erase the `rank` field, to compare ranked and unranked lists. -/
def clear_rank (n : Note) : Note := { n with rank := none }

/-- Membership in a ranked list comes from membership in the original
list. -/
theorem mem_rank_go {b : Note} :
    ∀ {k : ℤ} {l : List Note}, b ∈ rank_go k l →
      ∃ c ∈ l, ∃ j : ℤ, b = { c with rank := some j } := by
  intro k l
  induction l generalizing k with
  | nil => intro h; exact absurd h (by simp [rank_go])
  | cons a t ih =>
    intro h
    rw [rank_go, List.mem_cons] at h
    rcases h with h | h
    · exact ⟨a, List.mem_cons_self a t, k, h⟩
    · obtain ⟨c, hc, j, hj⟩ := ih h
      exact ⟨c, List.mem_cons_of_mem a hc, j, hj⟩

/-- Rank labelling preserves sortedness for the service order, which never
reads the `rank` field. -/
theorem rank_go_pairwise :
    ∀ (k : ℤ) {l : List Note}, l.Pairwise svc_le → (rank_go k l).Pairwise svc_le := by
  intro k l
  induction l generalizing k with
  | nil => intro _; simp [rank_go]
  | cons a t ih =>
    intro h
    rw [List.pairwise_cons] at h
    obtain ⟨ha, ht⟩ := h
    rw [rank_go, List.pairwise_cons]
    refine ⟨?_, ih (k + 1) ht⟩
    intro b hb
    obtain ⟨c, hc, j, rfl⟩ := mem_rank_go hb
    exact ha c hc

/-- Positional characterisation of the assigned ranks. -/
theorem rank_go_get :
    ∀ (l : List Note) (k : ℤ) (i : Fin (rank_go k l).length),
      ((rank_go k l).get i).rank = some (k + (i : ℕ)) := by
  intro l
  induction l with
  | nil => intro k i; exact absurd i.2 (by simp [rank_go])
  | cons a t ih =>
    intro k i
    match i with
    | ⟨0, _⟩ => simp [rank_go]
    | ⟨n + 1, hn⟩ =>
      have hn' : n < (rank_go (k + 1) t).length := by
        simpa [rank_go] using hn
      have := ih (k + 1) ⟨n, hn'⟩
      simp only [rank_go, List.get_cons_succ]
      rw [this]
      congr 1
      push_cast
      ring

/-- Rank labelling does not change anything but the `rank` field. -/
theorem rank_go_map_clear :
    ∀ (k : ℤ) (l : List Note), (rank_go k l).map clear_rank = l.map clear_rank := by
  intro k l
  induction l generalizing k with
  | nil => rfl
  | cons a t ih => simp only [rank_go, List.map_cons, ih]; rfl

/-- Length of a ranked list. -/
theorem rank_go_length : ∀ (k : ℤ) (l : List Note), (rank_go k l).length = l.length := by
  intro k l
  induction l generalizing k with
  | nil => rfl
  | cons a t ih => simp [rank_go, ih]

/-- C5: the caller-facing ranking service returns the enriched list sorted
descending by the pair `(weighted_ces, ces)` — equal `weighted_ces` ties
are broken by `ces` descending — and then assigns a 1-based, unique,
contiguous `rank` (position `i` gets rank `i+1`), only after this final
sort. -/
theorem service_sort_rank :
    ∀ (powHalf : ℚ → ℚ) (notes : List Note) (now_ms : ℤ) (out : List Note),
      score_and_sort_by_ces powHalf notes now_ms = .ok out →
      out.Pairwise svc_le ∧
      (∀ i : Fin out.length, (out.get i).rank = some (1 + (i : ℕ))) ∧
      ∃ mid, score_and_filter_notes powHalf (.pylist notes) service_config now_ms = .ok mid ∧
        List.Perm (out.map clear_rank) (mid.map clear_rank) ∧ out.length = mid.length := by
  intro powHalf notes now_ms out h
  unfold score_and_sort_by_ces at h
  simp only [bind, Except.bind] at h
  split at h
  · exact Except.noConfusion h
  · rename_i mid heq
    have hout : _rank_and_label (mid.insertionSort svc_le) = out := (Except.ok.injEq _ _).mp h
    subst hout
    unfold _rank_and_label
    refine ⟨rank_go_pairwise 1 (List.sorted_insertionSort svc_le mid), rank_go_get _ 1, mid, heq, ?_, ?_⟩
    · rw [rank_go_map_clear]
      exact (List.perm_insertionSort svc_le mid).map clear_rank
    · rw [rank_go_length, List.length_insertionSort]

/-- Two-note input for the service witness (no timestamps, so the decay
weight is 1 and the abstract power function is never used). -/
def svc_notes : List Note := [demo_note 3, demo_note 7]

/-- Output of the service on `svc_notes` as computed by the embedding. -/
def svc_out : List Note := (score_and_sort_by_ces pow_half_id svc_notes 0).toOption.getD []

/-- Witness for `service_sort_rank` at a concrete run. -/
theorem service_sort_rank_witness :
    svc_out.Pairwise svc_le ∧
    (∀ i : Fin svc_out.length, (svc_out.get i).rank = some (1 + (i : ℕ))) ∧
    ∃ mid, score_and_filter_notes pow_half_id (.pylist svc_notes) service_config 0 = .ok mid ∧
      List.Perm (svc_out.map clear_rank) (mid.map clear_rank) ∧ svc_out.length = mid.length :=
  service_sort_rank pow_half_id svc_notes 0 svc_out (by decide)

/-- Truncation of an empty list is empty. -/
theorem apply_top_truncation_nil (cfg : CESFilterConfig) :
    apply_top_truncation cfg ([] : List Note) = [] := by
  unfold apply_top_truncation topk_cut percent_cut
  rcases cfg.top_percent with _ | p <;> rcases cfg.top_k with _ | k <;>
    simp only [] <;> split <;> simp [List.take_nil]

/-- Structural decomposition of a successful pipeline run: the output is
the truncation of the stable sort of the survivor list. -/
theorem score_pipeline_eq_sorted_survivors :
    ∀ (powHalf : ℚ → ℚ) (l : List Note) (cfg : CESFilterConfig) (now_ms : ℤ) (out : List Note),
      score_pipeline powHalf l cfg now_ms = .ok out →
      ∃ s, survivors powHalf l cfg now_ms = .ok s ∧
        out = apply_top_truncation cfg (sort_stage s) := by
  intro powHalf l cfg now_ms out h
  unfold score_pipeline at h
  unfold survivors
  simp only [bind, Except.bind] at h ⊢
  by_cases hf : (basic_stage cfg now_ms l).isEmpty
  · rw [if_pos hf] at h
    have hout : ([] : List Note) = out := (Except.ok.injEq _ _).mp h
    have hnil : basic_stage cfg now_ms l = [] := List.isEmpty_iff.mp hf
    rw [hnil]
    refine ⟨[], ?_, ?_⟩
    · simp [enrich_list, threshold_stage]
    · rw [← hout]
      rw [show sort_stage [] = ([] : List Note) from rfl]
      exact (apply_top_truncation_nil cfg).symm
  · rw [if_neg hf] at h
    cases he : enrich_list powHalf cfg now_ms (basic_stage cfg now_ms l) with
    | error err => rw [he] at h; exact Except.noConfusion h
    | ok enriched =>
      rw [he] at h
      simp only [] at h ⊢
      by_cases hs : (threshold_stage cfg enriched).isEmpty
      · rw [if_pos hs] at h
        have hout : ([] : List Note) = out := (Except.ok.injEq _ _).mp h
        have hnil : threshold_stage cfg enriched = [] := List.isEmpty_iff.mp hs
        refine ⟨[], by rw [hnil], ?_⟩
        rw [← hout]
        rw [show sort_stage [] = ([] : List Note) from rfl]
        exact (apply_top_truncation_nil cfg).symm
      · rw [if_neg hs] at h
        refine ⟨threshold_stage cfg enriched, rfl, ?_⟩
        exact ((Except.ok.injEq _ _).mp h).symm

/-- C10: the sorts used by the pipeline and by the ranking service are
stable — survivors with equal sort keys keep, in the sorted output, the
relative order they had in the pre-sort survivor list. -/
theorem sort_stability :
    (∀ (powHalf : ℚ → ℚ) (l : List Note) (cfg : CESFilterConfig) (now_ms : ℤ)
        (s : List Note) (a b : Note),
      survivors powHalf l cfg now_ms = .ok s →
      List.Sublist [a, b] s →
      a.weighted_ces.getD 0 = b.weighted_ces.getD 0 →
      List.Sublist [a, b] (sort_stage s)) ∧
    (∀ (powHalf : ℚ → ℚ) (notes : List Note) (now_ms : ℤ) (mid : List Note) (a b : Note),
      score_and_filter_notes powHalf (.pylist notes) service_config now_ms = .ok mid →
      List.Sublist [a, b] mid →
      a.weighted_ces.getD 0 = b.weighted_ces.getD 0 →
      a.ces.getD 0 = b.ces.getD 0 →
      List.Sublist [a, b] (mid.insertionSort svc_le)) := by
  constructor
  · intro powHalf l cfg now_ms s a b _ hsub hkey
    exact List.pair_sublist_insertionSort (le_of_eq hkey.symm) hsub
  · intro powHalf notes now_ms mid a b _ hsub hw hc
    exact List.pair_sublist_insertionSort (Or.inr ⟨hw.symm, le_of_eq hc.symm⟩) hsub

/-- Two distinct concrete notes with equal scores, hence equal sort keys. -/
def stab_notes : List Note :=
  [demo_note 5, { default_note with liked_count := .vstr "5" }]

/-- Survivor list of the stability witness run. -/
def stab_surv : List Note :=
  (survivors pow_half_id stab_notes service_config 0).toOption.getD []

/-- Pipeline output of the stability witness run under the service
config. -/
def stab_mid : List Note :=
  (score_and_filter_notes pow_half_id (.pylist stab_notes) service_config 0).toOption.getD []

/-- Witness for `sort_stability` at a concrete run with a genuine tie. -/
theorem sort_stability_witness :
    List.Sublist [stab_surv.getD 0 default_note, stab_surv.getD 1 default_note]
      (sort_stage stab_surv) ∧
    List.Sublist [stab_mid.getD 0 default_note, stab_mid.getD 1 default_note]
      (stab_mid.insertionSort svc_le) :=
  ⟨sort_stability.1 pow_half_id stab_notes service_config 0 stab_surv
      (stab_surv.getD 0 default_note) (stab_surv.getD 1 default_note)
      (by decide) (by decide) (by decide),
   sort_stability.2 pow_half_id stab_notes 0 stab_mid
      (stab_mid.getD 0 default_note) (stab_mid.getD 1 default_note)
      (by decide) (by decide) (by decide) (by decide)⟩

/-- Reading below the length of the left part of an append. -/
theorem getD_append_left {H t : List Note} {j : ℕ} (h : j < H.length) :
    (H ++ t).getD j default_note = H.getD j default_note := by
  simp [List.getD_eq_getElem?_getD, List.getElem?_append_left h]

/-- Reading away from the updated index. -/
theorem getD_set_ne {H : List Note} {i j : ℕ} (h : i ≠ j) (a : Note) :
    (H.set i a).getD j default_note = H.getD j default_note := by
  simp [List.getD_eq_getElem?_getD, List.getElem?_set_ne h]

/-- The enrichment loop only writes at fresh addresses: every address that
existed before the loop still holds its old record afterwards, and the heap
only grows. -/
theorem enrich_loop_heap_preserves :
    ∀ (powHalf : ℚ → ℚ) (cfg : CESFilterConfig) (now_ms : ℤ) (as : List ℕ)
      (H H3 : List Note) (outs : List ℕ),
      enrich_loop_heap powHalf cfg now_ms H as = .ok (H3, outs) →
      (∀ j, j < H.length → H3.getD j default_note = H.getD j default_note) ∧
        H.length ≤ H3.length := by
  intro powHalf cfg now_ms as
  induction as with
  | nil =>
    intro H H3 outs h
    simp only [enrich_loop_heap] at h
    have h1 : H = H3 := congrArg Prod.fst ((Except.ok.injEq _ _).mp h)
    subst h1
    exact ⟨fun j _ => rfl, le_refl _⟩
  | cons a rest ih =>
    intro H H3 outs h
    simp only [enrich_loop_heap, bind, Except.bind] at h
    cases hc : compute_ces (H.getD a default_note) with
    | error err =>
      simp only [compute_ces_heap, hc] at h
      exact Except.noConfusion h
    | ok e =>
      simp only [compute_ces_heap, hc] at h
      obtain ⟨X, hT⟩ : ∃ X,
          (if cfg.enable_time_decay = true then
            apply_time_weight_heap powHalf (H ++ [e]) H.length cfg.half_life_hours now_ms
          else set_no_decay_heap (H ++ [e]) H.length) = ((H ++ [e]).set H.length X, H.length) := by
        by_cases hdec : cfg.enable_time_decay = true
        · exact ⟨_, by rw [if_pos hdec]; rfl⟩
        · exact ⟨_, by rw [if_neg hdec]; rfl⟩
      rw [hT] at h
      simp only [] at h
      cases hrec : enrich_loop_heap powHalf cfg now_ms ((H ++ [e]).set H.length X) rest with
      | error err => rw [hrec] at h; exact Except.noConfusion h
      | ok p =>
        rw [hrec] at h
        simp only [] at h
        have hH3 : p.1 = H3 := congrArg Prod.fst ((Except.ok.injEq _ _).mp h)
        obtain ⟨hps, hl⟩ := ih _ _ _ hrec
        have hlen : ((H ++ [e]).set H.length X).length = H.length + 1 := by simp
        subst hH3
        constructor
        · intro j hj
          rw [hps j (by omega), getD_set_ne (by omega) _, getD_append_left hj]
        · omega

/-- The whole heap pipeline never rewrites an address that the caller's
records occupy. -/
theorem score_pipeline_heap_preserves :
    ∀ (powHalf : ℚ → ℚ) (H : List Note) (addrs : List ℕ) (cfg : CESFilterConfig)
      (now_ms : ℤ) (H2 : List Note) (out : List ℕ),
      score_pipeline_heap powHalf H addrs cfg now_ms = .ok (H2, out) →
      ∀ j, j < H.length → H2.getD j default_note = H.getD j default_note := by
  intro powHalf H addrs cfg now_ms H2 out h j hj
  unfold score_pipeline_heap at h
  by_cases hf : (addrs.filter fun a => _passes_basic_filters (H.getD a default_note) cfg now_ms).isEmpty
  · rw [if_pos hf] at h
    have h1 : H = H2 := congrArg Prod.fst ((Except.ok.injEq _ _).mp h)
    rw [← h1]
  · rw [if_neg hf] at h
    simp only [bind, Except.bind] at h
    cases hrec : enrich_loop_heap powHalf cfg now_ms H
        (addrs.filter fun a => _passes_basic_filters (H.getD a default_note) cfg now_ms) with
    | error err => rw [hrec] at h; exact Except.noConfusion h
    | ok p =>
      rw [hrec] at h
      simp only [] at h
      have step := (enrich_loop_heap_preserves powHalf cfg now_ms _ _ _ _ hrec).1 j hj
      split at h
      · have h1 : p.1 = H2 := congrArg Prod.fst ((Except.ok.injEq _ _).mp h)
        rw [← h1]
        exact step
      · have h1 : p.1 = H2 := congrArg Prod.fst ((Except.ok.injEq _ _).mp h)
        rw [← h1]
        exact step

/-- Note with a precomputed `ces`, used in the mutation counterexample. -/
def c9_note : Note := { default_note with ces := some 27 }

/-- C9 (counterexample): `apply_time_weight` does not produce a fresh
augmented copy — it writes `time_weight` and `weighted_ces` in place on the
dict it is given.  On a one-record heap the record at the given address has
changed afterwards. -/
theorem apply_time_weight_mutates :
    (apply_time_weight_heap pow_half_id [c9_note] 0 48 0).1.getD 0 default_note ≠ c9_note ∧
    (apply_time_weight_heap pow_half_id [c9_note] 0 48 0).2 = 0 ∧
    ¬ (∀ (powHalf : ℚ → ℚ) (H : List Note) (a : ℕ) (half_life : ℚ) (now_ms : ℤ) (j : ℕ),
        j < H.length →
        (apply_time_weight_heap powHalf H a half_life now_ms).1.getD j default_note
          = H.getD j default_note) := by
  refine ⟨by decide, by decide, ?_⟩
  intro h
  have := h pow_half_id [c9_note] 0 48 0 0 (by decide)
  exact absurd this (by decide)

/-- C9 (amended): `compute_ces` enriches an augmented copy at a fresh
address, never touching existing records, and both enrichment operations
carry all original fields through unchanged; `apply_time_weight` augments
its record in place (at the address it is given), which inside the pipeline
is always the fresh copy, so a whole pipeline run leaves every
caller-supplied record unchanged. -/
theorem enrichment_no_caller_mutation :
    (∀ (H : List Note) (a : ℕ) (H2 : List Note) (b : ℕ),
      compute_ces_heap H a = .ok (H2, b) →
      (∀ j, j < H.length → H2.getD j default_note = H.getD j default_note) ∧
      b = H.length ∧
      compute_ces (H.getD a default_note) = .ok (H2.getD b default_note)) ∧
    (∀ (note e : Note), compute_ces note = .ok e → original_fields e = original_fields note) ∧
    (∀ (powHalf : ℚ → ℚ) (e : Note) (half_life : ℚ) (now_ms : ℤ),
      original_fields (apply_time_weight powHalf e half_life now_ms) = original_fields e ∧
      (apply_time_weight_heap powHalf [e] 0 half_life now_ms).1
        = [apply_time_weight powHalf e half_life now_ms]) ∧
    (∀ (powHalf : ℚ → ℚ) (H : List Note) (addrs : List ℕ) (cfg : CESFilterConfig)
        (now_ms : ℤ) (H2 : List Note) (out : List ℕ),
      score_pipeline_heap powHalf H addrs cfg now_ms = .ok (H2, out) →
      ∀ j, j < H.length → H2.getD j default_note = H.getD j default_note) := by
  refine ⟨?_, ?_, ?_, score_pipeline_heap_preserves⟩
  · intro H a H2 b h
    unfold compute_ces_heap at h
    cases hc : compute_ces (H.getD a default_note) with
    | error err => rw [hc] at h; exact Except.noConfusion h
    | ok e =>
      rw [hc] at h
      have hp : (H ++ [e], H.length) = (H2, b) := (Except.ok.injEq _ _).mp h
      have h1 : H ++ [e] = H2 := congrArg Prod.fst hp
      have h2 : H.length = b := congrArg Prod.snd hp
      subst h1
      subst h2
      refine ⟨fun j hj => getD_append_left hj, rfl, ?_⟩
      try rw [hc]
      try congr 1
      rw [List.getD_eq_getElem?_getD, List.getElem?_append_right (le_refl _)]
      simp
  · intro note e h
    obtain ⟨l, c, cm, sh, f, _, _, _, _, _, he⟩ := compute_ces_ok_elim h
    subst he
    rfl
  · intro powHalf e half_life now_ms
    exact ⟨rfl, rfl⟩

/-- Heap and result of a one-record heap pipeline run, for the mutation
witness. -/
def c9_run : List Note × List ℕ :=
  (score_pipeline_heap pow_half_id [c9_note] [0] service_config 0).toOption.getD ([], [])

/-- Heap produced by `compute_ces_heap` on the one-record heap. -/
def c9_copy_heap : List Note × ℕ :=
  (compute_ces_heap [c9_note] 0).toOption.getD ([], 0)

/-- Witness for `enrichment_no_caller_mutation` at a concrete heap. -/
theorem enrichment_no_caller_mutation_witness :
    ((∀ j, j < ([c9_note] : List Note).length →
        c9_copy_heap.1.getD j default_note = ([c9_note] : List Note).getD j default_note) ∧
      c9_copy_heap.2 = ([c9_note] : List Note).length ∧
      compute_ces (([c9_note] : List Note).getD 0 default_note)
        = .ok (c9_copy_heap.1.getD c9_copy_heap.2 default_note)) ∧
    (original_fields c1_enriched = original_fields c1_note) ∧
    (∀ j, j < ([c9_note] : List Note).length →
      c9_run.1.getD j default_note = ([c9_note] : List Note).getD j default_note) :=
  ⟨enrichment_no_caller_mutation.1 [c9_note] 0 c9_copy_heap.1 c9_copy_heap.2 (by decide),
   enrichment_no_caller_mutation.2.1 c1_note c1_enriched (by decide),
   enrichment_no_caller_mutation.2.2.2 pow_half_id [c9_note] [0] service_config 0
     c9_run.1 c9_run.2 (by decide)⟩

/-- C3: the time-decay weight is exactly `1` for an undeterminable age or a
non-positive half-life, and otherwise equals `0.5 ^ (hours_ago /
half_life)`; for every positive half-life it is positive, at most `1` for
non-negative ages, `1` at age `0`, `0.5` at age `half_life`, strictly
decreasing in the age, and never exactly `0`; ages produced by
`_epoch_ms_to_hours_ago` are never negative. -/
theorem time_decay_weight_contract :
    (∀ half_life : ℝ, time_decay_weight_real none half_life = 1) ∧
    (∀ h half_life : ℝ, half_life ≤ 0 → time_decay_weight_real (some h) half_life = 1) ∧
    (∀ h half_life : ℝ, 0 < half_life →
      time_decay_weight_real (some h) half_life = (0.5 : ℝ) ^ (h / half_life)) ∧
    (∀ h half_life : ℝ, 0 < half_life → 0 < time_decay_weight_real (some h) half_life) ∧
    (∀ h half_life : ℝ, 0 < half_life → 0 ≤ h → time_decay_weight_real (some h) half_life ≤ 1) ∧
    (∀ half_life : ℝ, 0 < half_life → time_decay_weight_real (some 0) half_life = 1) ∧
    (∀ half_life : ℝ, 0 < half_life → time_decay_weight_real (some half_life) half_life = 0.5) ∧
    (∀ h1 h2 half_life : ℝ, 0 < half_life → h1 < h2 →
      time_decay_weight_real (some h2) half_life < time_decay_weight_real (some h1) half_life) ∧
    (∀ h half_life : ℝ, 0 < half_life → time_decay_weight_real (some h) half_life ≠ 0) ∧
    (∀ (ms : CVal) (now_ms : ℤ) (h : ℚ), _epoch_ms_to_hours_ago ms now_ms = some h → 0 ≤ h) := by
  have key : ∀ h half_life : ℝ, 0 < half_life →
      time_decay_weight_real (some h) half_life = (0.5 : ℝ) ^ (h / half_life) := by
    intro h half_life h0
    simp only [time_decay_weight_real]
    rw [if_neg (not_le.mpr h0)]
  have pos : ∀ h half_life : ℝ, 0 < half_life → 0 < time_decay_weight_real (some h) half_life := by
    intro h half_life h0
    rw [key h half_life h0]
    exact Real.rpow_pos_of_pos (by norm_num) _
  refine ⟨fun _ => rfl, ?_, key, pos, ?_, ?_, ?_, ?_, ?_, ?_⟩
  · intro h half_life hle
    simp only [time_decay_weight_real]
    rw [if_pos hle]
  · intro h half_life h0 hh
    rw [key h half_life h0]
    exact Real.rpow_le_one (by norm_num) (by norm_num) (div_nonneg hh (le_of_lt h0))
  · intro half_life h0
    rw [key 0 half_life h0, zero_div, Real.rpow_zero]
  · intro half_life h0
    rw [key half_life half_life h0, div_self (ne_of_gt h0), Real.rpow_one]
  · intro h1 h2 half_life h0 hlt
    rw [key h1 half_life h0, key h2 half_life h0]
    exact Real.rpow_lt_rpow_of_exponent_gt (by norm_num) (by norm_num)
      (div_lt_div_of_pos_right hlt h0)
  · intro h half_life h0
    exact ne_of_gt (pos h half_life h0)
  · intro ms now_ms h hsome
    cases hv : pyIntOfVal ms with
    | none =>
      simp only [_epoch_ms_to_hours_ago, hv] at hsome
      exact Option.noConfusion hsome
    | some m =>
      simp only [_epoch_ms_to_hours_ago, hv] at hsome
      by_cases hm : m ≤ 0
      · rw [if_pos hm] at hsome
        exact Option.noConfusion hsome
      · rw [if_neg hm] at hsome
        have hh : ((max 0 (now_ms - m) : ℤ) : ℚ) / 1000 / 3600 = h :=
          (Option.some.injEq _ _).mp hsome
        rw [← hh]
        apply div_nonneg (div_nonneg ?_ (by norm_num)) (by norm_num)
        exact_mod_cast le_max_left 0 (now_ms - m)

/-- Witness for `time_decay_weight_contract` at concrete ages and the
48-hour half-life. -/
theorem time_decay_weight_contract_witness :
    time_decay_weight_real (some 0) 48 = 1 ∧
    time_decay_weight_real (some 48) 48 = 0.5 ∧
    time_decay_weight_real (some 96) 48 < time_decay_weight_real (some 48) 48 ∧
    0 < time_decay_weight_real (some 1000) 48 ∧
    time_decay_weight_real (some 1000) 48 ≤ 1 ∧
    time_decay_weight_real (some 7) (-1) = 1 ∧
    time_decay_weight_real (some 7) 48 ≠ 0 ∧
    (0 : ℚ) ≤ 0 := by
  obtain ⟨c1, c2, c3, c4, c5, c6, c7, c8, c9, c10⟩ := time_decay_weight_contract
  exact ⟨c6 48 (by norm_num), c7 48 (by norm_num), c8 48 96 48 (by norm_num) (by norm_num),
    c4 1000 48 (by norm_num), c5 1000 48 (by norm_num) (by norm_num),
    c2 7 (-1) (by norm_num), c9 7 48 (by norm_num),
    c10 (.vint 1) 1 0 (by decide)⟩
